import Mathlib

/-!
Verification of the x86 Adler-32 kernels of lib/x86/adler32_impl.h.

The file gives a shallow embedding of the three vectorized chunk kernels
(`adler32_sse2_chunk`, `adler32_avx2_chunk`, `adler32_avx512bw_chunk`), of the
horizontal-reduction macros (`ADLER32_FINISH_VEC_CHUNK_128/256/512`) and of the
runtime dispatcher (`arch_select_adler32_func`), and proves or refutes the
specified properties of each.

Modelling conventions:
- A SIMD vector of n 32-bit lanes is a function `Fin n → Int`.  All lane
  arithmetic of the source is 32-bit wraparound arithmetic; the model keeps
  lane values as unreduced integers and applies the `% 2^32` reduction at the
  single point where a lane is stored back through the `u32` output pointers
  (wraparound composes, so deferring the reduction is exact).
- The 16-bit byte-sum lanes of the SSE2 kernel are likewise kept unreduced;
  the signed 16-bit reinterpretation done by `_mm_madd_epi16` is applied at
  the point of use via `toSigned16`, which first reduces modulo 2^16.
- A chunk is a `List Nat` of byte values; the pointer pair `[p, end)` of the C
  code becomes the list together with its length.  The do-while loops advance
  the pointer by one segment per iteration and the drivers only present
  chunks whose length is a positive multiple of the segment size, so the
  loops are embedded as structural recursion running `length / segment`
  iterations (the exit test itself is modelled by `loopExitReachable`).
-/

namespace Adler32

/-- A SIMD vector of `n` 32-bit integer lanes (values kept unreduced). -/
abbrev Vec (n : Nat) := Fin n → Int

/-- Sum of the four lanes of a 128-bit vector of 32-bit lanes. -/
def sum4 (v : Vec 4) : Int := v 0 + v 1 + v 2 + v 3

/-- Sum of the eight lanes of a 256-bit vector of 32-bit lanes. -/
def sum8 (v : Vec 8) : Int := v 0 + v 1 + v 2 + v 3 + v 4 + v 5 + v 6 + v 7

/-- Sum of the sixteen lanes of a 512-bit vector of 32-bit lanes. -/
def sum16 (v : Vec 16) : Int :=
  v 0 + v 1 + v 2 + v 3 + v 4 + v 5 + v 6 + v 7
    + v 8 + v 9 + v 10 + v 11 + v 12 + v 13 + v 14 + v 15

/-- Sum of the even-indexed lanes of an 8-lane vector. -/
def even8 (v : Vec 8) : Int := v 0 + v 2 + v 4 + v 6

/-- Sum of the even-indexed lanes of a 16-lane vector. -/
def even16 (v : Vec 16) : Int := v 0 + v 2 + v 4 + v 6 + v 8 + v 10 + v 12 + v 14

/-- Lanewise dot product of two 8-lane vectors. -/
def dot8 (u w : Vec 8) : Int :=
  u 0 * w 0 + u 1 * w 1 + u 2 * w 2 + u 3 * w 3
    + u 4 * w 4 + u 5 * w 5 + u 6 * w 6 + u 7 * w 7

/-- `_mm_shuffle_epi32`: result lane `i` is source lane `(imm >> 2*i) & 3`. -/
def pshufd (imm : Nat) (v : Vec 4) : Vec 4 :=
  fun i => v ⟨imm / 4 ^ i.val % 4, Nat.mod_lt _ (by norm_num)⟩

/-- The 256-to-128-bit halving fold (`_mm256_extracti128_si256` 0 plus 1). -/
def fold8 (v : Vec 8) : Vec 4 :=
  fun i => v ⟨i.val, by have := i.isLt; omega⟩ + v ⟨i.val + 4, by have := i.isLt; omega⟩

/-- The 512-to-256-bit halving fold (`_mm512_extracti64x4_epi64` 0 plus 1). -/
def fold16 (v : Vec 16) : Vec 8 :=
  fun i => v ⟨i.val, by have := i.isLt; omega⟩ + v ⟨i.val + 8, by have := i.isLt; omega⟩

/-- The 128-bit horizontal-reduction macro.  `s2` is folded by the shuffle
steps `0x31` then `0x02`; `s1` is folded by the single shuffle step `0x02`
(the second s1 step is skipped in the source).  Lane 0 of each folded vector
is then added, as a `u32`, onto the scalar through the output pointer. -/
def ADLER32_FINISH_VEC_CHUNK_128 (s1 s2 : Nat) (v_s1 v_s2 : Vec 4) : Nat × Nat :=
  let s2a := v_s2 + pshufd 0x31 v_s2
  let s1a := v_s1 + pshufd 0x02 v_s1
  let s2b := s2a + pshufd 0x02 s2a
  ((((s1 : Int) + s1a 0) % 2 ^ 32).toNat,
   (((s2 : Int) + s2b 0) % 2 ^ 32).toNat)

/-- The 256-bit horizontal-reduction macro: add the two 128-bit halves, then
reduce with the 128-bit macro. -/
def ADLER32_FINISH_VEC_CHUNK_256 (s1 s2 : Nat) (v_s1 v_s2 : Vec 8) : Nat × Nat :=
  ADLER32_FINISH_VEC_CHUNK_128 s1 s2 (fold8 v_s1) (fold8 v_s2)

/-- The 512-bit horizontal-reduction macro: add the two 256-bit halves, then
reduce with the 256-bit macro. -/
def ADLER32_FINISH_VEC_CHUNK_512 (s1 s2 : Nat) (v_s1 v_s2 : Vec 16) : Nat × Nat :=
  ADLER32_FINISH_VEC_CHUNK_256 s1 s2 (fold16 v_s1) (fold16 v_s2)

/-- Signed 16-bit reinterpretation of an accumulated lane value, as done by
`_mm_madd_epi16` on its 16-bit operands. -/
def toSigned16 (x : Int) : Int :=
  if x % 65536 < 32768 then x % 65536 else x % 65536 - 65536

/-- `_mm_madd_epi16`: multiply corresponding signed 16-bit lanes and add the
two products of each adjacent pair into one 32-bit lane. -/
def madd (u w : Vec 8) : Vec 4 :=
  fun j =>
    toSigned16 (u ⟨2 * j.val, by have := j.isLt; omega⟩)
        * toSigned16 (w ⟨2 * j.val, by have := j.isLt; omega⟩)
      + toSigned16 (u ⟨2 * j.val + 1, by have := j.isLt; omega⟩)
        * toSigned16 (w ⟨2 * j.val + 1, by have := j.isLt; omega⟩)

/-- Sum of the 8 bytes of the chunk starting at byte offset `off`, as summed
by one half of a `_mm_sad_epu8` against zero. -/
def sumAt (l : List Nat) (off cnt : Nat) : Nat := ((l.drop off).take cnt).sum

/-- `_mm_sad_epu8 bytes zeroes` on the 16 bytes at offset `off`: the sum of
the low 8 bytes lands in 32-bit lane 0 and the sum of the high 8 bytes in
lane 2; lanes 1 and 3 are zero. -/
def sadVec (l : List Nat) (off : Nat) : Vec 4 :=
  fun i =>
    if i.val = 0 then (sumAt l off 8 : Int)
    else if i.val = 2 then (sumAt l (off + 8) 8 : Int)
    else 0

/-- `_mm_unpacklo_epi8`/`_mm_unpackhi_epi8` against zero (resp. the low half
of `_mm256_cvtepu8_epi32`): the 8 bytes at offset `off` zero-extended into
8 wider lanes. -/
def unpackV (l : List Nat) (off : Nat) : Vec 8 :=
  fun k => (l.getD (off + k.val) 0 : Int)

/-- `_mm512_cvtepu8_epi32`: the 16 bytes at offset `off` zero-extended into
16 32-bit lanes. -/
def unpack16V (l : List Nat) (off : Nat) : Vec 16 :=
  fun k => (l.getD (off + k.val) 0 : Int)

/-! ### SSE2 kernel -/

/-- Loop state of `adler32_sse2_chunk`: the 4x32-bit s1 and s2 counters and
the four vectors of eight 16-bit byte-sum counters. -/
structure SSE2State where
  v_s1 : Vec 4
  v_s2 : Vec 4
  v_byte_sums_a : Vec 8
  v_byte_sums_b : Vec 8
  v_byte_sums_c : Vec 8
  v_byte_sums_d : Vec 8

def sse2Init : SSE2State := ⟨0, 0, 0, 0, 0, 0⟩

/-- One iteration of the SSE2 loop over the 32 bytes at the head of `l`:
`v_s2 += v_s1`; `v_s1` gains the psadbw sums of both 16-byte vectors; the
byte-sum counters gain the unpacked bytes. -/
def sse2Step (l : List Nat) (st : SSE2State) : SSE2State :=
  { v_s1 := st.v_s1 + sadVec l 0 + sadVec l 16
    v_s2 := st.v_s2 + st.v_s1
    v_byte_sums_a := st.v_byte_sums_a + unpackV l 0
    v_byte_sums_b := st.v_byte_sums_b + unpackV l 8
    v_byte_sums_c := st.v_byte_sums_c + unpackV l 16
    v_byte_sums_d := st.v_byte_sums_d + unpackV l 24 }

/-- The SSE2 do-while loop: one `sse2Step` per 32-byte segment. -/
def sse2Loop : List Nat → Nat → SSE2State → SSE2State
  | _, 0, st => st
  | l, k + 1, st => sse2Loop (l.drop 32) k (sse2Step l st)

/-- The multiplier vectors of the four `_mm_madd_epi16` calls. -/
def wA : Vec 8 := fun k => 32 - (k.val : Int)
def wB : Vec 8 := fun k => 24 - (k.val : Int)
def wC : Vec 8 := fun k => 16 - (k.val : Int)
def wD : Vec 8 := fun k => 8 - (k.val : Int)

/-- Final s2 vector of the SSE2 kernel: shift the s2 counters left by 5 and
add the four madd products of the byte-sum counters with the weights. -/
def sse2FinalS2Vec (st : SSE2State) : Vec 4 :=
  (fun i => 32 * st.v_s2 i)
    + madd st.v_byte_sums_a wA + madd st.v_byte_sums_b wB
    + madd st.v_byte_sums_c wC + madd st.v_byte_sums_d wD

/-- `adler32_sse2_chunk p end s1 s2` over the byte range `[p, end)` given as
a list: run the loop once per 32 bytes, finish the s2 counters, and add both
horizontal sums onto the caller counters. -/
def adler32_sse2_chunk (bytes : List Nat) (s1 s2 : Nat) : Nat × Nat :=
  let st := sse2Loop bytes (bytes.length / 32) sse2Init
  ADLER32_FINISH_VEC_CHUNK_128 s1 s2 st.v_s1 (sse2FinalS2Vec st)

/-! ### AVX2 kernel -/

/-- Loop state of `adler32_avx2_chunk`: four 8x32-bit byte-sum groups and
four 8x32-bit weighted-sum groups. -/
structure AVX2State where
  v_s1_a : Vec 8
  v_s1_b : Vec 8
  v_s1_c : Vec 8
  v_s1_d : Vec 8
  v_s2_a : Vec 8
  v_s2_b : Vec 8
  v_s2_c : Vec 8
  v_s2_d : Vec 8

def avx2Init : AVX2State := ⟨0, 0, 0, 0, 0, 0, 0, 0⟩

/-- One iteration of the AVX2 loop over the 32 bytes at the head of `l`:
each s2 group gains the previous s1 group, then each s1 group gains 8 bytes
widened by `_mm256_cvtepu8_epi32`. -/
def avx2Step (l : List Nat) (st : AVX2State) : AVX2State :=
  { v_s2_a := st.v_s2_a + st.v_s1_a
    v_s2_b := st.v_s2_b + st.v_s1_b
    v_s2_c := st.v_s2_c + st.v_s1_c
    v_s2_d := st.v_s2_d + st.v_s1_d
    v_s1_a := st.v_s1_a + unpackV l 0
    v_s1_b := st.v_s1_b + unpackV l 8
    v_s1_c := st.v_s1_c + unpackV l 16
    v_s1_d := st.v_s1_d + unpackV l 24 }

/-- The AVX2 do-while loop: one `avx2Step` per 32-byte segment. -/
def avx2Loop : List Nat → Nat → AVX2State → AVX2State
  | _, 0, st => st
  | l, k + 1, st => avx2Loop (l.drop 32) k (avx2Step l st)

/-- Combined s1 vector of the AVX2 kernel (`a += c; b += d; a += b`). -/
def avx2CombinedS1 (st : AVX2State) : Vec 8 :=
  st.v_s1_a + st.v_s1_c + (st.v_s1_b + st.v_s1_d)

/-- Final s2 vector of the AVX2 kernel: combine the four s2 groups, shift
left by 5, and add the four lanewise weighted s1 groups. -/
def avx2FinalS2Vec (st : AVX2State) : Vec 8 :=
  (fun k => 32 * (st.v_s2_a + st.v_s2_c + (st.v_s2_b + st.v_s2_d)) k)
    + (fun k => st.v_s1_a k * wA k) + (fun k => st.v_s1_b k * wB k)
    + (fun k => st.v_s1_c k * wC k) + (fun k => st.v_s1_d k * wD k)

/-- `adler32_avx2_chunk` over the byte range given as a list. -/
def adler32_avx2_chunk (bytes : List Nat) (s1 s2 : Nat) : Nat × Nat :=
  let st := avx2Loop bytes (bytes.length / 32) avx2Init
  ADLER32_FINISH_VEC_CHUNK_256 s1 s2 (avx2CombinedS1 st) (avx2FinalS2Vec st)

/-! ### AVX-512BW kernel -/

/-- Loop state of `adler32_avx512bw_chunk`: four 16x32-bit byte-sum groups
and four 16x32-bit weighted-sum groups. -/
structure AVX512State where
  v_s1_a : Vec 16
  v_s1_b : Vec 16
  v_s1_c : Vec 16
  v_s1_d : Vec 16
  v_s2_a : Vec 16
  v_s2_b : Vec 16
  v_s2_c : Vec 16
  v_s2_d : Vec 16

def avx512Init : AVX512State := ⟨0, 0, 0, 0, 0, 0, 0, 0⟩

/-- One iteration of the AVX-512BW loop over the 64 bytes at the head of
`l`: each s2 group gains the previous s1 group, then each s1 group gains 16
bytes widened by `_mm512_cvtepu8_epi32`. -/
def avx512Step (l : List Nat) (st : AVX512State) : AVX512State :=
  { v_s2_a := st.v_s2_a + st.v_s1_a
    v_s2_b := st.v_s2_b + st.v_s1_b
    v_s2_c := st.v_s2_c + st.v_s1_c
    v_s2_d := st.v_s2_d + st.v_s1_d
    v_s1_a := st.v_s1_a + unpack16V l 0
    v_s1_b := st.v_s1_b + unpack16V l 16
    v_s1_c := st.v_s1_c + unpack16V l 32
    v_s1_d := st.v_s1_d + unpack16V l 48 }

/-- The AVX-512BW do-while loop: one `avx512Step` per 64-byte segment. -/
def avx512Loop : List Nat → Nat → AVX512State → AVX512State
  | _, 0, st => st
  | l, k + 1, st => avx512Loop (l.drop 64) k (avx512Step l st)

/-- The multiplier vectors of the four weighted additions of the AVX-512BW
kernel: 64..49, 48..33, 32..17, 16..1. -/
def w512A : Vec 16 := fun k => 64 - (k.val : Int)
def w512B : Vec 16 := fun k => 48 - (k.val : Int)
def w512C : Vec 16 := fun k => 32 - (k.val : Int)
def w512D : Vec 16 := fun k => 16 - (k.val : Int)

/-- Combined s1 vector of the AVX-512BW kernel (`a += c; b += d; a += b`). -/
def avx512CombinedS1 (st : AVX512State) : Vec 16 :=
  st.v_s1_a + st.v_s1_c + (st.v_s1_b + st.v_s1_d)

/-- Final s2 vector of the AVX-512BW kernel: combine the four s2 groups,
shift left by 5 (`_mm512_slli_epi32 .. 5`, i.e. multiply by 32, exactly as
the source does), and add the four lanewise weighted s1 groups. -/
def avx512FinalS2Vec (st : AVX512State) : Vec 16 :=
  (fun k => 32 * (st.v_s2_a + st.v_s2_c + (st.v_s2_b + st.v_s2_d)) k)
    + (fun k => st.v_s1_a k * w512A k) + (fun k => st.v_s1_b k * w512B k)
    + (fun k => st.v_s1_c k * w512C k) + (fun k => st.v_s1_d k * w512D k)

/-- `adler32_avx512bw_chunk` over the byte range given as a list. -/
def adler32_avx512bw_chunk (bytes : List Nat) (s1 s2 : Nat) : Nat × Nat :=
  let st := avx512Loop bytes (bytes.length / 64) avx512Init
  ADLER32_FINISH_VEC_CHUNK_512 s1 s2 (avx512CombinedS1 st) (avx512FinalS2Vec st)

/-! ### Reference quantities and per-kernel contribution functions -/

/-- Sum of the bytes of the chunk. -/
def sumN (l : List Nat) : Nat := l.sum

/-- The weighted byte sum of the scalar Adler-32 s2 recurrence over one
chunk: the byte at 0-indexed position `j` of an `n`-byte chunk contributes
`(n - j)` times its value. -/
def wSum : List Nat → Nat
  | [] => 0
  | b :: t => (t.length + 1) * b + wSum t

/-- Value the SSE2 kernel adds onto `s1` (a function of the bytes only). -/
def sse2S1Gain (bytes : List Nat) : Int :=
  let st := sse2Loop bytes (bytes.length / 32) sse2Init
  st.v_s1 0 + st.v_s1 2

/-- Value the SSE2 kernel adds onto `s2` (a function of the bytes only). -/
def sse2S2Gain (bytes : List Nat) : Int :=
  let v := sse2FinalS2Vec (sse2Loop bytes (bytes.length / 32) sse2Init)
  v 0 + v 1 + (v 2 + v 3)

/-- Value the AVX2 kernel adds onto `s1` (a function of the bytes only). -/
def avx2S1Gain (bytes : List Nat) : Int :=
  let u := fold8 (avx2CombinedS1 (avx2Loop bytes (bytes.length / 32) avx2Init))
  u 0 + u 2

/-- Value the AVX2 kernel adds onto `s2` (a function of the bytes only). -/
def avx2S2Gain (bytes : List Nat) : Int :=
  let v := fold8 (avx2FinalS2Vec (avx2Loop bytes (bytes.length / 32) avx2Init))
  v 0 + v 1 + (v 2 + v 3)

/-- Value the AVX-512BW kernel adds onto `s1` (a function of the bytes
only). -/
def avx512S1Gain (bytes : List Nat) : Int :=
  let u := fold8 (fold16 (avx512CombinedS1 (avx512Loop bytes (bytes.length / 64) avx512Init)))
  u 0 + u 2

/-- Value the AVX-512BW kernel adds onto `s2` (a function of the bytes
only). -/
def avx512S2Gain (bytes : List Nat) : Int :=
  let v := fold8 (fold16 (avx512FinalS2Vec (avx512Loop bytes (bytes.length / 64) avx512Init)))
  v 0 + v 1 + (v 2 + v 3)

/-! ### Kernel descriptor constants and loop exit model -/

/-- `IMPL_MAX_CHUNK_SIZE` of the SSE2 implementation. -/
def IMPL_MAX_CHUNK_SIZE : Nat := 32 * (0x7FFF / 0xFF)

/-- The do-while exit test `p != end` with the pointer advanced by `seg`
bytes per iteration and tested after each iteration: the loop exits iff the
pointer ever equals `end`, i.e. iff some positive iteration count `k` has
`seg * k = n`. -/
def loopExitReachable (seg n : Nat) : Prop := ∃ k, 0 < k ∧ seg * k = n

/-- Number of iterations the chunk loop performs on an `n`-byte chunk. -/
def loopIterCount (seg n : Nat) : Nat := n / seg

/-! ### Capability dispatcher -/

/-- The three accelerated kernels `arch_select_adler32_func` can return. -/
inductive AdlerKernel
  | avx512bw
  | avx2
  | sse2
deriving DecidableEq, Fintype

/-- Which `DISPATCH_*` macros are defined, i.e. which kernels are compiled
in for runtime dispatch. -/
structure DispatchConfig where
  dispatchAvx512bw : Bool
  dispatchAvx2 : Bool
  dispatchSse2 : Bool
deriving DecidableEq

/-- The capability bitset returned by `get_cpu_features`, restricted to the
three bits the dispatcher tests. -/
structure CpuFeatures where
  avx512bw : Bool
  avx2 : Bool
  sse2 : Bool
deriving DecidableEq

/-- Whether the kernel is compiled in (its `DISPATCH_*` macro defined). -/
def compiledIn (cfg : DispatchConfig) : AdlerKernel → Bool
  | .avx512bw => cfg.dispatchAvx512bw
  | .avx2 => cfg.dispatchAvx2
  | .sse2 => cfg.dispatchSse2

/-- Whether the feature bit of the kernel is set in the capability bitset. -/
def featurePresent (f : CpuFeatures) : AdlerKernel → Bool
  | .avx512bw => f.avx512bw
  | .avx2 => f.avx2
  | .sse2 => f.sse2

/-- Capability order of the kernels: wider vector width ranks higher. -/
def kernelRank : AdlerKernel → Nat
  | .avx512bw => 2
  | .avx2 => 1
  | .sse2 => 0

/-- `arch_select_adler32_func`: test AVX-512BW, then AVX2, then SSE2; return
the first kernel that is compiled in and whose feature bit is set, or `none`
when no accelerated kernel qualifies. -/
def arch_select_adler32_func (cfg : DispatchConfig) (features : CpuFeatures) :
    Option AdlerKernel :=
  if cfg.dispatchAvx512bw && features.avx512bw then some .avx512bw
  else if cfg.dispatchAvx2 && features.avx2 then some .avx2
  else if cfg.dispatchSse2 && features.sse2 then some .sse2
  else none

/-! ### Cast and list-index helpers -/

lemma natAdd_mod_toNat (a b : Nat) :
    (((a : Int) + (b : Int)) % 2 ^ 32).toNat = (a + b) % 2 ^ 32 := by
  have h : ((a : Int) + b) = ((a + b : Nat) : Int) := by push_cast; ring
  rw [h, show ((2 : Int) ^ 32) = ((2 ^ 32 : Nat) : Int) by norm_num,
    ← Int.natCast_mod, Int.toNat_natCast]

lemma getD_drop (l : List Nat) (n j : Nat) : (l.drop n).getD j 0 = l.getD (n + j) 0 := by
  simp [List.getD_eq_getElem?_getD, List.getElem?_drop]

lemma getD_take (l : List Nat) (n j : Nat) (h : j < n) :
    (l.take n).getD j 0 = l.getD j 0 := by
  simp [List.getD_eq_getElem?_getD, List.getElem?_take, h]

lemma getD_lt (l : List Nat) (j : Nat) (h : ∀ b ∈ l, b < 256) : l.getD j 0 < 256 := by
  rw [List.getD_eq_getElem?_getD]
  cases hj : l[j]? with
  | none => norm_num
  | some v => exact h v (List.getElem?_mem hj)

/-- The four 8-byte `psadbw` half sums of a 32-byte segment add up to the sum
of the segment. -/
lemma take32_sum_split (l : List Nat) :
    (l.take 32).sum = sumAt l 0 8 + sumAt l 8 8 + sumAt l 16 8 + sumAt l 24 8 := by
  unfold sumAt
  rw [List.drop_zero]
  have e2 : (l.take 32).drop 8 = (l.drop 8).take 24 := by rw [List.drop_take]
  have e4 : ((l.drop 8).take 24).drop 8 = (l.drop 16).take 16 := by
    rw [List.drop_take, List.drop_drop]
  have e6 : ((l.drop 16).take 16).drop 8 = (l.drop 24).take 8 := by
    rw [List.drop_take, List.drop_drop]
  have h1 := List.sum_take_add_sum_drop (l.take 32) 8
  have h2 := List.sum_take_add_sum_drop ((l.drop 8).take 24) 8
  have h3 := List.sum_take_add_sum_drop ((l.drop 16).take 16) 8
  rw [List.take_take, e2] at h1
  rw [List.take_take, e4] at h2
  rw [List.take_take, e6] at h3
  norm_num at h1 h2 h3
  omega

/-- Sum of a `take` as a range sum of `getD` values. -/
lemma sum_take_getD (n : Nat) (l : List Nat) (h : n ≤ l.length) :
    (l.take n).sum = ∑ j ∈ Finset.range n, l.getD j 0 := by
  induction l generalizing n with
  | nil => simp at h; subst h; simp
  | cons b t ih =>
    cases n with
    | zero => simp
    | succ m =>
      rw [List.take_succ_cons, List.sum_cons, Finset.sum_range_succ']
      simp only [List.getD_cons_succ, List.getD_cons_zero]
      rw [ih m (by simpa using h)]
      ring

/-- `wSum` as a range sum of weighted `getD` values. -/
lemma wSum_getD (l : List Nat) :
    (wSum l : Int) = ∑ j ∈ Finset.range l.length,
      ((l.length - j : Nat) : Int) * (l.getD j 0 : Int) := by
  induction l with
  | nil => simp [wSum]
  | cons b t ih =>
    rw [wSum, List.length_cons, Finset.sum_range_succ']
    push_cast
    simp only [List.getD_cons_succ, List.getD_cons_zero]
    rw [ih]
    ring

/-- Splitting `wSum` at a list concatenation: the bytes of `xs` each gain
`ys.length` extra weight. -/
lemma wSum_append (xs ys : List Nat) :
    wSum (xs ++ ys) = wSum xs + ys.length * xs.sum + wSum ys := by
  induction xs with
  | nil => simp [wSum]
  | cons b t ih =>
    rw [List.cons_append, wSum, wSum, ih, List.length_append, List.sum_cons]
    ring

/-! ### Fin literal value lemmas (used to expand lane sums) -/

lemma fv4_0 : ((0 : Fin 4) : Nat) = 0 := rfl
lemma fv4_1 : ((1 : Fin 4) : Nat) = 1 := rfl
lemma fv4_2 : ((2 : Fin 4) : Nat) = 2 := rfl
lemma fv4_3 : ((3 : Fin 4) : Nat) = 3 := rfl
lemma fv8_0 : ((0 : Fin 8) : Nat) = 0 := rfl
lemma fv8_1 : ((1 : Fin 8) : Nat) = 1 := rfl
lemma fv8_2 : ((2 : Fin 8) : Nat) = 2 := rfl
lemma fv8_3 : ((3 : Fin 8) : Nat) = 3 := rfl
lemma fv8_4 : ((4 : Fin 8) : Nat) = 4 := rfl
lemma fv8_5 : ((5 : Fin 8) : Nat) = 5 := rfl
lemma fv8_6 : ((6 : Fin 8) : Nat) = 6 := rfl
lemma fv8_7 : ((7 : Fin 8) : Nat) = 7 := rfl

/-! ### Vector algebra helpers -/

lemma sum4_add (u v : Vec 4) : sum4 (u + v) = sum4 u + sum4 v := by
  simp only [sum4, Pi.add_apply]; ring

lemma sum8_add (u v : Vec 8) : sum8 (u + v) = sum8 u + sum8 v := by
  simp only [sum8, Pi.add_apply]; ring

lemma sum4_scale (v : Vec 4) : sum4 (fun i => 32 * v i) = 32 * sum4 v := by
  simp only [sum4]; ring

lemma sum8_scale (v : Vec 8) : sum8 (fun i => 32 * v i) = 32 * sum8 v := by
  simp only [sum8]; ring

lemma dot8_add_left (u v w : Vec 8) : dot8 (u + v) w = dot8 u w + dot8 v w := by
  simp only [dot8, Pi.add_apply]; ring

lemma sum8_mul (u w : Vec 8) : sum8 (fun k => u k * w k) = dot8 u w := by
  simp only [sum8, dot8]

lemma sadVec_0 (l : List Nat) (off : Nat) : sadVec l off 0 = (sumAt l off 8 : Int) := rfl
lemma sadVec_1 (l : List Nat) (off : Nat) : sadVec l off 1 = 0 := rfl
lemma sadVec_2 (l : List Nat) (off : Nat) :
    sadVec l off 2 = (sumAt l (off + 8) 8 : Int) := rfl
lemma sadVec_3 (l : List Nat) (off : Nat) : sadVec l off 3 = 0 := rfl

lemma toSigned16_eq_self (x : Int) (h0 : 0 ≤ x) (h : x < 32768) : toSigned16 x = x := by
  unfold toSigned16
  rw [Int.emod_eq_of_lt h0 (by omega)]
  exact if_pos h

lemma toSigned16_wA (i : Fin 8) : toSigned16 (wA i) = wA i := by
  have hi := i.isLt
  apply toSigned16_eq_self <;> simp only [wA] <;> omega

lemma toSigned16_wB (i : Fin 8) : toSigned16 (wB i) = wB i := by
  have hi := i.isLt
  apply toSigned16_eq_self <;> simp only [wB] <;> omega

lemma toSigned16_wC (i : Fin 8) : toSigned16 (wC i) = wC i := by
  have hi := i.isLt
  apply toSigned16_eq_self <;> simp only [wC] <;> omega

lemma toSigned16_wD (i : Fin 8) : toSigned16 (wD i) = wD i := by
  have hi := i.isLt
  apply toSigned16_eq_self <;> simp only [wD] <;> omega

lemma sum4_madd (u w : Vec 8) :
    sum4 (madd u w)
      = toSigned16 (u 0) * toSigned16 (w 0) + toSigned16 (u 1) * toSigned16 (w 1)
        + (toSigned16 (u 2) * toSigned16 (w 2) + toSigned16 (u 3) * toSigned16 (w 3))
        + (toSigned16 (u 4) * toSigned16 (w 4) + toSigned16 (u 5) * toSigned16 (w 5))
        + (toSigned16 (u 6) * toSigned16 (w 6) + toSigned16 (u 7) * toSigned16 (w 7)) := rfl

/-! ### Per-segment weighted sums -/

/-- The weighted byte sum the four weight vectors assign to the 32 bytes at
the head of the chunk: byte `j` (for `j < 32`) carries weight `32 - j`. -/
def wSeg (l : List Nat) : Int :=
  dot8 (unpackV l 0) wA + dot8 (unpackV l 8) wB
    + dot8 (unpackV l 16) wC + dot8 (unpackV l 24) wD

lemma wSeg_eq (l : List Nat) (h : 32 ≤ l.length) :
    (wSum (l.take 32) : Int) = wSeg l := by
  rw [wSum_getD]
  have hl : (l.take 32).length = 32 := by rw [List.length_take]; omega
  rw [hl]
  simp only [Finset.sum_range_succ, Finset.range_zero, Finset.sum_empty,
    wSeg, dot8, unpackV, wA, wB, wC, wD,
    fv8_0, fv8_1, fv8_2, fv8_3, fv8_4, fv8_5, fv8_6, fv8_7,
    List.getD_eq_getElem?_getD, List.getElem?_take]
  norm_num
  ring

lemma unpack_sum32 (l : List Nat) (h : 32 ≤ l.length) :
    sum8 (unpackV l 0) + sum8 (unpackV l 8) + sum8 (unpackV l 16) + sum8 (unpackV l 24)
      = ((l.take 32).sum : Int) := by
  rw [sum_take_getD 32 l h]
  push_cast
  simp only [Finset.sum_range_succ, Finset.range_zero, Finset.sum_empty,
    sum8, unpackV, fv8_0, fv8_1, fv8_2, fv8_3, fv8_4, fv8_5, fv8_6, fv8_7]
  norm_num
  ring

/-! ### Horizontal-reduction extraction lemmas -/

lemma finish128_fst (s1 s2 : Nat) (a b : Vec 4) :
    (ADLER32_FINISH_VEC_CHUNK_128 s1 s2 a b).1
      = (((s1 : Int) + (a 0 + a 2)) % 2 ^ 32).toNat := rfl

lemma finish128_snd (s1 s2 : Nat) (a b : Vec 4) :
    (ADLER32_FINISH_VEC_CHUNK_128 s1 s2 a b).2
      = (((s2 : Int) + (b 0 + b 1 + (b 2 + b 3))) % 2 ^ 32).toNat := rfl

/-! ### SSE2 loop invariant -/

/-- Aggregate weighted dot product of the four byte-sum counter groups. -/
def sse2D (st : SSE2State) : Int :=
  dot8 st.v_byte_sums_a wA + dot8 st.v_byte_sums_b wB
    + dot8 st.v_byte_sums_c wC + dot8 st.v_byte_sums_d wD

lemma sse2Step_s1_0 (l : List Nat) (st : SSE2State) :
    (sse2Step l st).v_s1 0 = st.v_s1 0 + (sumAt l 0 8 : Int) + (sumAt l 16 8 : Int) := rfl

lemma sse2Step_s1_1 (l : List Nat) (st : SSE2State) :
    (sse2Step l st).v_s1 1 = st.v_s1 1 + 0 + 0 := rfl

lemma sse2Step_s1_2 (l : List Nat) (st : SSE2State) :
    (sse2Step l st).v_s1 2 = st.v_s1 2 + (sumAt l 8 8 : Int) + (sumAt l 24 8 : Int) := rfl

lemma sse2Step_s1_3 (l : List Nat) (st : SSE2State) :
    (sse2Step l st).v_s1 3 = st.v_s1 3 + 0 + 0 := rfl

lemma sum4_sadVec (l : List Nat) (off : Nat) :
    sum4 (sadVec l off) = (sumAt l off 8 : Int) + (sumAt l (off + 8) 8 : Int) := by
  simp only [sum4, sadVec_0, sadVec_1, sadVec_2, sadVec_3]
  ring

lemma sse2Step_s1_sum (l : List Nat) (st : SSE2State) :
    sum4 (sse2Step l st).v_s1 = sum4 st.v_s1 + ((l.take 32).sum : Int) := by
  have : (sse2Step l st).v_s1 = st.v_s1 + sadVec l 0 + sadVec l 16 := rfl
  rw [this, sum4_add, sum4_add, sum4_sadVec, sum4_sadVec, take32_sum_split l]
  push_cast
  ring

lemma sse2Step_s2_sum (l : List Nat) (st : SSE2State) :
    sum4 (sse2Step l st).v_s2 = sum4 st.v_s2 + sum4 st.v_s1 := by
  have : (sse2Step l st).v_s2 = st.v_s2 + st.v_s1 := rfl
  rw [this, sum4_add]

lemma sse2Step_D (l : List Nat) (st : SSE2State) :
    sse2D (sse2Step l st) = sse2D st + wSeg l := by
  simp only [sse2D, sse2Step, dot8_add_left, wSeg]
  ring

/-- Splitting `wSum` at the first 32-byte segment of a chunk of `k + 1`
segments. -/
lemma wSum_chunk_step (l : List Nat) (k : Nat) (h : l.length = 32 * (k + 1)) :
    (wSum l : Int)
      = wSeg l + 32 * (k : Int) * ((l.take 32).sum : Int) + (wSum (l.drop 32) : Int) := by
  have hsplit := wSum_append (l.take 32) (l.drop 32)
  rw [List.take_append_drop] at hsplit
  have hdl : (l.drop 32).length = 32 * k := by rw [List.length_drop]; omega
  rw [hsplit, hdl]
  push_cast
  rw [← wSeg_eq l (by omega)]

/-- Invariant of the SSE2 loop: lanes 0 and 2 of `v_s1` accumulate the byte
sum while lanes 1 and 3 stay untouched, and the deferred weighted quantity
`32 * sum4 v_s2 + sse2D` accumulates exactly the weighted byte sum `wSum`. -/
lemma sse2_loop_inv (k : Nat) :
    ∀ (l : List Nat) (st : SSE2State), l.length = 32 * k →
      ((sse2Loop l k st).v_s1 0 + (sse2Loop l k st).v_s1 2
          = st.v_s1 0 + st.v_s1 2 + (l.sum : Int))
        ∧ ((sse2Loop l k st).v_s1 1 = st.v_s1 1)
        ∧ ((sse2Loop l k st).v_s1 3 = st.v_s1 3)
        ∧ (sum4 (sse2Loop l k st).v_s1 = sum4 st.v_s1 + (l.sum : Int))
        ∧ (32 * sum4 (sse2Loop l k st).v_s2 + sse2D (sse2Loop l k st)
            = 32 * sum4 st.v_s2 + sse2D st + 32 * (k : Int) * sum4 st.v_s1
              + (wSum l : Int)) := by
  induction k with
  | zero =>
    intro l st h
    have hl : l = [] := List.eq_nil_of_length_eq_zero (by omega)
    subst hl
    refine ⟨?_, rfl, rfl, ?_, ?_⟩ <;> simp [sse2Loop, wSum]
  | succ k ih =>
    intro l st h
    have hrest : (l.drop 32).length = 32 * k := by rw [List.length_drop]; omega
    obtain ⟨ih1, ih2, ih3, ih4, ih5⟩ := ih (l.drop 32) (sse2Step l st) hrest
    have hloop : sse2Loop l (k + 1) st = sse2Loop (l.drop 32) k (sse2Step l st) := rfl
    have hsum : (l.sum : Int) = ((l.take 32).sum : Int) + ((l.drop 32).sum : Int) := by
      rw [← List.sum_take_add_sum_drop l 32]
      push_cast
      ring
    have hsplit := take32_sum_split l
    refine ⟨?_, ?_, ?_, ?_, ?_⟩
    · rw [hloop, ih1, sse2Step_s1_0, sse2Step_s1_2, hsum]
      push_cast [hsplit]
      ring
    · rw [hloop, ih2, sse2Step_s1_1]
      ring
    · rw [hloop, ih3, sse2Step_s1_3]
      ring
    · rw [hloop, ih4, sse2Step_s1_sum, hsum]
      ring
    · rw [hloop, ih5, sse2Step_s2_sum, sse2Step_D, sse2Step_s1_sum,
        wSum_chunk_step l k h]
      push_cast
      ring

/-- The byte-sum counters grow by at most 255 per iteration and never
shrink. -/
lemma sse2_loop_bs_bounds (k : Nat) :
    ∀ (l : List Nat) (st : SSE2State), (∀ b ∈ l, b < 256) →
      ∀ i : Fin 8,
        (st.v_byte_sums_a i ≤ (sse2Loop l k st).v_byte_sums_a i
            ∧ (sse2Loop l k st).v_byte_sums_a i ≤ st.v_byte_sums_a i + 255 * k)
          ∧ (st.v_byte_sums_b i ≤ (sse2Loop l k st).v_byte_sums_b i
            ∧ (sse2Loop l k st).v_byte_sums_b i ≤ st.v_byte_sums_b i + 255 * k)
          ∧ (st.v_byte_sums_c i ≤ (sse2Loop l k st).v_byte_sums_c i
            ∧ (sse2Loop l k st).v_byte_sums_c i ≤ st.v_byte_sums_c i + 255 * k)
          ∧ (st.v_byte_sums_d i ≤ (sse2Loop l k st).v_byte_sums_d i
            ∧ (sse2Loop l k st).v_byte_sums_d i ≤ st.v_byte_sums_d i + 255 * k) := by
  induction k with
  | zero =>
    intro l st h i
    simp [sse2Loop]
  | succ k ih =>
    intro l st h i
    have hd : ∀ b ∈ l.drop 32, b < 256 := fun b hb => h b (List.mem_of_mem_drop hb)
    obtain ⟨iha, ihb, ihc, ihd⟩ := ih (l.drop 32) (sse2Step l st) hd i
    have hloop : sse2Loop l (k + 1) st = sse2Loop (l.drop 32) k (sse2Step l st) := rfl
    have ha : (sse2Step l st).v_byte_sums_a i
        = st.v_byte_sums_a i + (l.getD (0 + i.val) 0 : Int) := rfl
    have hb : (sse2Step l st).v_byte_sums_b i
        = st.v_byte_sums_b i + (l.getD (8 + i.val) 0 : Int) := rfl
    have hc : (sse2Step l st).v_byte_sums_c i
        = st.v_byte_sums_c i + (l.getD (16 + i.val) 0 : Int) := rfl
    have hdd : (sse2Step l st).v_byte_sums_d i
        = st.v_byte_sums_d i + (l.getD (24 + i.val) 0 : Int) := rfl
    have g1 := getD_lt l (0 + i.val) h
    have g2 := getD_lt l (8 + i.val) h
    have g3 := getD_lt l (16 + i.val) h
    have g4 := getD_lt l (24 + i.val) h
    rw [hloop]
    rw [ha] at iha
    rw [hb] at ihb
    rw [hc] at ihc
    rw [hdd] at ihd
    refine ⟨⟨?_, ?_⟩, ⟨?_, ?_⟩, ⟨?_, ?_⟩, ⟨?_, ?_⟩⟩ <;> omega

/-- A madd of in-range nonnegative lane sums with the weight vectors is the
plain dot product. -/
lemma madd_sum_of_bounds (u w : Vec 8) (hu : ∀ i, 0 ≤ u i ∧ u i < 32768)
    (hw : ∀ i, toSigned16 (w i) = w i) : sum4 (madd u w) = dot8 u w := by
  rw [sum4_madd, hw 0, hw 1, hw 2, hw 3, hw 4, hw 5, hw 6, hw 7,
    toSigned16_eq_self _ (hu 0).1 (hu 0).2, toSigned16_eq_self _ (hu 1).1 (hu 1).2,
    toSigned16_eq_self _ (hu 2).1 (hu 2).2, toSigned16_eq_self _ (hu 3).1 (hu 3).2,
    toSigned16_eq_self _ (hu 4).1 (hu 4).2, toSigned16_eq_self _ (hu 5).1 (hu 5).2,
    toSigned16_eq_self _ (hu 6).1 (hu 6).2, toSigned16_eq_self _ (hu 7).1 (hu 7).2,
    dot8]
  ring

lemma sum4_zero : sum4 0 = 0 := by simp [sum4]

lemma dot8_zero (w : Vec 8) : dot8 0 w = 0 := by simp [dot8]

lemma IMPL_MAX_CHUNK_SIZE_eq : IMPL_MAX_CHUNK_SIZE = 4096 := rfl

/-- Full functional characterization of the SSE2 kernel on a valid chunk:
`s1` gains the byte sum and `s2` gains the weighted byte sum `wSum`, both
modulo `2^32`. -/
lemma sse2_chunk_eq (bytes : List Nat) (s1 s2 : Nat) (hm : bytes.length % 32 = 0)
    (hmax : bytes.length ≤ IMPL_MAX_CHUNK_SIZE) (hb : ∀ b ∈ bytes, b < 256) :
    adler32_sse2_chunk bytes s1 s2
      = ((s1 + sumN bytes) % 2 ^ 32, (s2 + wSum bytes) % 2 ^ 32) := by
  rw [IMPL_MAX_CHUNK_SIZE_eq] at hmax
  have hlen : bytes.length = 32 * (bytes.length / 32) := by omega
  have hk128 : bytes.length / 32 ≤ 128 := by omega
  obtain ⟨h1, h2, h3, h4, h5⟩ := sse2_loop_inv (bytes.length / 32) bytes sse2Init hlen
  have hbnd := sse2_loop_bs_bounds (bytes.length / 32) bytes sse2Init hb
  show ADLER32_FINISH_VEC_CHUNK_128 s1 s2
      (sse2Loop bytes (bytes.length / 32) sse2Init).v_s1
      (sse2FinalS2Vec (sse2Loop bytes (bytes.length / 32) sse2Init)) = _
  set L := sse2Loop bytes (bytes.length / 32) sse2Init with hL
  have huA : ∀ i, 0 ≤ L.v_byte_sums_a i ∧ L.v_byte_sums_a i < 32768 := by
    intro i
    obtain ⟨⟨la, ua⟩, _, _, _⟩ := hbnd i
    simp only [sse2Init, Pi.zero_apply] at la ua
    omega
  have huB : ∀ i, 0 ≤ L.v_byte_sums_b i ∧ L.v_byte_sums_b i < 32768 := by
    intro i
    obtain ⟨_, ⟨la, ua⟩, _, _⟩ := hbnd i
    simp only [sse2Init, Pi.zero_apply] at la ua
    omega
  have huC : ∀ i, 0 ≤ L.v_byte_sums_c i ∧ L.v_byte_sums_c i < 32768 := by
    intro i
    obtain ⟨_, _, ⟨la, ua⟩, _⟩ := hbnd i
    simp only [sse2Init, Pi.zero_apply] at la ua
    omega
  have huD : ∀ i, 0 ≤ L.v_byte_sums_d i ∧ L.v_byte_sums_d i < 32768 := by
    intro i
    obtain ⟨_, _, _, ⟨la, ua⟩⟩ := hbnd i
    simp only [sse2Init, Pi.zero_apply] at la ua
    omega
  rw [Prod.ext_iff]
  constructor
  · rw [finish128_fst]
    have hgain : L.v_s1 0 + L.v_s1 2 = (bytes.sum : Int) := by
      rw [h1]
      simp [sse2Init]
    rw [hgain, natAdd_mod_toNat]
    rfl
  · rw [finish128_snd]
    have hgroup : sse2FinalS2Vec L 0 + sse2FinalS2Vec L 1
        + (sse2FinalS2Vec L 2 + sse2FinalS2Vec L 3) = sum4 (sse2FinalS2Vec L) := by
      rw [sum4]; ring
    have hsum4 : sum4 (sse2FinalS2Vec L) = 32 * sum4 L.v_s2 + sse2D L := by
      rw [sse2FinalS2Vec, sum4_add, sum4_add, sum4_add, sum4_add, sum4_scale,
        madd_sum_of_bounds _ _ huA toSigned16_wA,
        madd_sum_of_bounds _ _ huB toSigned16_wB,
        madd_sum_of_bounds _ _ huC toSigned16_wC,
        madd_sum_of_bounds _ _ huD toSigned16_wD, sse2D]
      ring
    have hG : 32 * sum4 L.v_s2 + sse2D L = (wSum bytes : Int) := by
      rw [h5]
      simp only [sse2Init, sum4_zero, sse2D, dot8_zero]
      ring
    rw [hgroup, hsum4, hG, natAdd_mod_toNat]

/-! ### AVX2 loop invariant (s2 path) -/

/-- Aggregate lane sum of the four AVX2 weighted-sum groups. -/
def avx2T2 (st : AVX2State) : Int :=
  sum8 st.v_s2_a + sum8 st.v_s2_b + sum8 st.v_s2_c + sum8 st.v_s2_d

/-- Aggregate weighted dot product of the four AVX2 byte-sum groups. -/
def avx2D (st : AVX2State) : Int :=
  dot8 st.v_s1_a wA + dot8 st.v_s1_b wB + dot8 st.v_s1_c wC + dot8 st.v_s1_d wD

/-- Aggregate lane sum of the four AVX2 byte-sum groups. -/
def avx2S (st : AVX2State) : Int :=
  sum8 st.v_s1_a + sum8 st.v_s1_b + sum8 st.v_s1_c + sum8 st.v_s1_d

lemma avx2Step_T2 (l : List Nat) (st : AVX2State) :
    avx2T2 (avx2Step l st) = avx2T2 st + avx2S st := by
  simp only [avx2T2, avx2S, avx2Step, sum8_add]
  ring

lemma avx2Step_D (l : List Nat) (st : AVX2State) :
    avx2D (avx2Step l st) = avx2D st + wSeg l := by
  simp only [avx2D, avx2Step, dot8_add_left, wSeg]
  ring

lemma avx2Step_S (l : List Nat) (st : AVX2State) (h : 32 ≤ l.length) :
    avx2S (avx2Step l st) = avx2S st + ((l.take 32).sum : Int) := by
  simp only [avx2S, avx2Step, sum8_add]
  rw [← unpack_sum32 l h]
  ring

/-- Invariant of the AVX2 loop: the deferred weighted quantity
`32 * avx2T2 + avx2D` accumulates exactly the weighted byte sum `wSum`, and
the byte-sum groups accumulate the byte sum. -/
lemma avx2_loop_inv (k : Nat) :
    ∀ (l : List Nat) (st : AVX2State), l.length = 32 * k →
      (avx2S (avx2Loop l k st) = avx2S st + (l.sum : Int))
        ∧ (32 * avx2T2 (avx2Loop l k st) + avx2D (avx2Loop l k st)
            = 32 * avx2T2 st + avx2D st + 32 * (k : Int) * avx2S st + (wSum l : Int)) := by
  induction k with
  | zero =>
    intro l st h
    have hl : l = [] := List.eq_nil_of_length_eq_zero (by omega)
    subst hl
    refine ⟨?_, ?_⟩ <;> simp [avx2Loop, wSum]
  | succ k ih =>
    intro l st h
    have h32 : 32 ≤ l.length := by omega
    have hrest : (l.drop 32).length = 32 * k := by rw [List.length_drop]; omega
    obtain ⟨ih1, ih2⟩ := ih (l.drop 32) (avx2Step l st) hrest
    have hloop : avx2Loop l (k + 1) st = avx2Loop (l.drop 32) k (avx2Step l st) := rfl
    have hsum : (l.sum : Int) = ((l.take 32).sum : Int) + ((l.drop 32).sum : Int) := by
      rw [← List.sum_take_add_sum_drop l 32]
      push_cast
      ring
    constructor
    · rw [hloop, ih1, avx2Step_S l st h32, hsum]
      ring
    · rw [hloop, ih2, avx2Step_T2, avx2Step_D, avx2Step_S l st h32,
        wSum_chunk_step l k h]
      push_cast
      ring

lemma sum8_zero : sum8 0 = 0 := by simp [sum8]

lemma fold8_quad_sum (v : Vec 8) :
    fold8 v 0 + fold8 v 1 + (fold8 v 2 + fold8 v 3) = sum8 v := by
  show v 0 + v 4 + (v 1 + v 5) + (v 2 + v 6 + (v 3 + v 7)) = sum8 v
  rw [sum8]
  ring

lemma sum8_avx2FinalS2Vec (st : AVX2State) :
    sum8 (avx2FinalS2Vec st) = 32 * avx2T2 st + avx2D st := by
  rw [avx2FinalS2Vec, sum8_add, sum8_add, sum8_add, sum8_add, sum8_scale,
    sum8_mul, sum8_mul, sum8_mul, sum8_mul, sum8_add, sum8_add, sum8_add,
    avx2T2, avx2D]
  ring

/-- The s2 output of the AVX2 kernel on a valid chunk gains exactly the
weighted byte sum `wSum`, modulo `2^32`. -/
lemma avx2_chunk_snd (bytes : List Nat) (s1 s2 : Nat) (hm : bytes.length % 32 = 0) :
    (adler32_avx2_chunk bytes s1 s2).2 = (s2 + wSum bytes) % 2 ^ 32 := by
  have hlen : bytes.length = 32 * (bytes.length / 32) := by omega
  obtain ⟨h1, h2⟩ := avx2_loop_inv (bytes.length / 32) bytes avx2Init hlen
  show (ADLER32_FINISH_VEC_CHUNK_128 s1 s2
      (fold8 (avx2CombinedS1 (avx2Loop bytes (bytes.length / 32) avx2Init)))
      (fold8 (avx2FinalS2Vec (avx2Loop bytes (bytes.length / 32) avx2Init)))).2 = _
  set L := avx2Loop bytes (bytes.length / 32) avx2Init with hL
  rw [finish128_snd, fold8_quad_sum, sum8_avx2FinalS2Vec]
  have hG : 32 * avx2T2 L + avx2D L = (wSum bytes : Int) := by
    rw [h2]
    simp only [avx2Init, avx2T2, avx2D, avx2S, sum8_zero, dot8_zero]
    ring
  rw [hG, natAdd_mod_toNat]

lemma sse2Init_bsA (i : Fin 8) : sse2Init.v_byte_sums_a i = 0 := rfl
lemma sse2Init_bsB (i : Fin 8) : sse2Init.v_byte_sums_b i = 0 := rfl
lemma sse2Init_bsC (i : Fin 8) : sse2Init.v_byte_sums_c i = 0 := rfl
lemma sse2Init_bsD (i : Fin 8) : sse2Init.v_byte_sums_d i = 0 := rfl

lemma emod_toNat_congr (s : Nat) (X Y : Int) (h : X = Y) :
    (((s : Int) + X) % 2 ^ 32).toNat = (((s : Int) + Y) % 2 ^ 32).toNat := by rw [h]

lemma sum8_fold16 (v : Vec 16) : sum8 (fold16 v) = sum16 v := by
  show v 0 + v 8 + (v 1 + v 9) + (v 2 + v 10) + (v 3 + v 11) + (v 4 + v 12)
      + (v 5 + v 13) + (v 6 + v 14) + (v 7 + v 15) = sum16 v
  rw [sum16]
  ring

/-- The odd 32-bit lanes of the SSE2 `v_s1` counters are never touched by
the loop, because `psadbw` deposits its two sums in lanes 0 and 2 only. -/
lemma sse2_loop_odd (k : Nat) :
    ∀ (l : List Nat) (st : SSE2State),
      (sse2Loop l k st).v_s1 1 = st.v_s1 1 ∧ (sse2Loop l k st).v_s1 3 = st.v_s1 3 := by
  induction k with
  | zero => intro l st; exact ⟨rfl, rfl⟩
  | succ k ih =>
    intro l st
    obtain ⟨i1, i3⟩ := ih (l.drop 32) (sse2Step l st)
    have hloop : sse2Loop l (k + 1) st = sse2Loop (l.drop 32) k (sse2Step l st) := rfl
    constructor
    · rw [hloop, i1, sse2Step_s1_1]; ring
    · rw [hloop, i3, sse2Step_s1_3]; ring

lemma madd_prod_bound (u w : Vec 8) (i : Fin 8) (hu : 0 ≤ u i ∧ u i ≤ 32640)
    (hw : 0 ≤ w i ∧ w i ≤ 32) (hwts : toSigned16 (w i) = w i) :
    0 ≤ toSigned16 (u i) * toSigned16 (w i)
      ∧ toSigned16 (u i) * toSigned16 (w i) < 2 ^ 31 := by
  rw [hwts, toSigned16_eq_self _ hu.1 (by omega)]
  constructor
  · exact mul_nonneg hu.1 hw.1
  · calc u i * w i ≤ 32640 * 32 := mul_le_mul hu.2 hw.2 hw.1 (by norm_num)
    _ < 2 ^ 31 := by norm_num

lemma wA_bounds (i : Fin 8) : 0 ≤ wA i ∧ wA i ≤ 32 := by
  have := i.isLt; simp only [wA]; omega

lemma wB_bounds (i : Fin 8) : 0 ≤ wB i ∧ wB i ≤ 32 := by
  have := i.isLt; simp only [wB]; omega

lemma wC_bounds (i : Fin 8) : 0 ≤ wC i ∧ wC i ≤ 32 := by
  have := i.isLt; simp only [wC]; omega

lemma wD_bounds (i : Fin 8) : 0 ≤ wD i ∧ wD i ≤ 32 := by
  have := i.isLt; simp only [wD]; omega

/-! ### Concrete inputs used to exhibit the kernel divergences -/

/-- 32-byte chunk whose only nonzero byte, value 1, sits at position 1. -/
def c1ex32 : List Nat := 0 :: 1 :: List.replicate 30 0

/-- 64-byte chunk whose only nonzero byte, value 1, sits at position 1. -/
def c1ex64 : List Nat := 0 :: 1 :: List.replicate 62 0

/-- 128-byte chunk whose only nonzero byte, value 1, sits at position 0. -/
def c3ex : List Nat := 1 :: List.replicate 127 0

/-- 128-byte chunk whose only nonzero byte, value 1, sits at position 1. -/
def c4ex : List Nat := 0 :: 1 :: List.replicate 126 0

/-- 4-lane vector whose only nonzero 32-bit lane is lane 1. -/
def c2vec : Vec 4 := fun i => if i.val = 1 then 5 else 0

/-- 4-lane vector with lanes 0 and 2 nonzero, as `psadbw` produces. -/
def c9vec : Vec 4 := fun i => if i.val = 0 then 3 else if i.val = 2 then 5 else 0

/-! ### Claim theorems -/

set_option maxRecDepth 40000 in
/-- C1: the claim states that every kernel updates `(s1, s2)` so that `s1`
gains the sum of all chunk bytes and `s2` gains `(n - j)` times the byte at
each position `j`.  The SSE2 kernel does (see `sse2_chunk_eq`), but the AVX2
and AVX-512BW kernels drop the bytes at odd positions from the `s1` update:
on a 32-byte chunk whose only nonzero byte (value 1) is at position 1, the
AVX2 kernel adds 0 to `s1` instead of 1 (and likewise the AVX-512BW kernel on
the corresponding 64-byte chunk), because their final reduction keeps only
the even 32-bit lanes of the per-lane byte sums. -/
theorem c1_kernel_eval :
    (adler32_avx2_chunk c1ex32 0 0 = (0, 31) ∧ sumN c1ex32 = 1 ∧ wSum c1ex32 = 31
        ∧ adler32_avx2_chunk c1ex32 0 0
            ≠ ((0 + sumN c1ex32) % 2 ^ 32, (0 + wSum c1ex32) % 2 ^ 32))
      ∧ (adler32_avx512bw_chunk c1ex64 0 0 = (0, 63) ∧ sumN c1ex64 = 1 ∧ wSum c1ex64 = 63
        ∧ adler32_avx512bw_chunk c1ex64 0 0
            ≠ ((0 + sumN c1ex64) % 2 ^ 32, (0 + wSum c1ex64) % 2 ^ 32)) := by
  refine ⟨⟨by decide, by decide, by decide, by decide⟩,
    ⟨by decide, by decide, by decide, by decide⟩⟩

/-- C2 counterexample: the 128-bit reduction macro does not add the sum of
all four `s1` lanes.  On a vector whose only nonzero lane is lane 1 it adds
0 onto `s1` although the lane sum is 5 (while the same vector used as the
`s2` input does contribute all 5). -/
theorem c2_counterexample :
    (ADLER32_FINISH_VEC_CHUNK_128 0 0 c2vec c2vec).1 = 0
      ∧ (ADLER32_FINISH_VEC_CHUNK_128 0 0 c2vec c2vec).2 = 5
      ∧ sum4 c2vec = 5 ∧ (0 : Nat) ≠ 5 := by decide

/-- C2 amended: each reduction macro adds onto `s2` exactly the sum of all
lanes of the `s2` vector (modulo `2^32`), but onto `s1` only the sum of
lanes 0 and 2 after the halving folds, i.e. the even-indexed lanes of the
original `s1` vector; that equals the full lane sum exactly when the other
lanes are zero. -/
theorem c2_amended (s1 s2 : Nat) (a4 b4 : Vec 4) (a8 b8 : Vec 8) (a16 b16 : Vec 16) :
    ADLER32_FINISH_VEC_CHUNK_128 s1 s2 a4 b4
        = ((((s1 : Int) + (a4 0 + a4 2)) % 2 ^ 32).toNat,
           (((s2 : Int) + sum4 b4) % 2 ^ 32).toNat)
      ∧ ADLER32_FINISH_VEC_CHUNK_256 s1 s2 a8 b8
        = ((((s1 : Int) + even8 a8) % 2 ^ 32).toNat,
           (((s2 : Int) + sum8 b8) % 2 ^ 32).toNat)
      ∧ ADLER32_FINISH_VEC_CHUNK_512 s1 s2 a16 b16
        = ((((s1 : Int) + even16 a16) % 2 ^ 32).toNat,
           (((s2 : Int) + sum16 b16) % 2 ^ 32).toNat) := by
  refine ⟨?_, ?_, ?_⟩
  · rw [Prod.ext_iff]
    refine ⟨by rw [finish128_fst], ?_⟩
    rw [finish128_snd]
    exact emod_toNat_congr s2 _ _ (by rw [sum4]; ring)
  · rw [Prod.ext_iff]
    constructor
    · show (ADLER32_FINISH_VEC_CHUNK_128 s1 s2 (fold8 a8) (fold8 b8)).1 = _
      rw [finish128_fst]
      refine emod_toNat_congr s1 _ _ ?_
      show a8 0 + a8 4 + (a8 2 + a8 6) = even8 a8
      rw [even8]; ring
    · show (ADLER32_FINISH_VEC_CHUNK_128 s1 s2 (fold8 a8) (fold8 b8)).2 = _
      rw [finish128_snd]
      exact emod_toNat_congr s2 _ _ (fold8_quad_sum b8)
  · rw [Prod.ext_iff]
    constructor
    · show (ADLER32_FINISH_VEC_CHUNK_128 s1 s2 (fold8 (fold16 a16)) (fold8 (fold16 b16))).1 = _
      rw [finish128_fst]
      refine emod_toNat_congr s1 _ _ ?_
      show a16 0 + a16 8 + (a16 4 + a16 12) + (a16 2 + a16 10 + (a16 6 + a16 14))
          = even16 a16
      rw [even16]; ring
    · show (ADLER32_FINISH_VEC_CHUNK_128 s1 s2 (fold8 (fold16 a16)) (fold8 (fold16 b16))).2 = _
      rw [finish128_snd]
      exact emod_toNat_congr s2 _ _ (by rw [fold8_quad_sum, sum8_fold16])

set_option maxRecDepth 40000 in
/-- C3: the claim states the deferred shift factor equals the segment size
(64 for the AVX-512BW kernel), but the source shifts by 5 (factor 32) in all
three kernels.  On a 128-byte chunk (two 64-byte segments) whose only
nonzero byte (value 1) is at position 0, the correct `s2` gain is 128, yet
the kernel produces 96 = 32 + 64: the deferred term is scaled by 32 instead
of 64. -/
theorem c3_avx512_shift_eval :
    adler32_avx512bw_chunk c3ex 0 0 = (1, 96)
      ∧ sumN c3ex = 1 ∧ wSum c3ex = 128 ∧ c3ex.length = 128
      ∧ adler32_avx512bw_chunk c3ex 0 0
          ≠ ((0 + sumN c3ex) % 2 ^ 32, (0 + wSum c3ex) % 2 ^ 32) := by
  refine ⟨by decide, by decide, by decide, by decide, by decide⟩

set_option maxRecDepth 40000 in
/-- C4 counterexample: on a 128-byte AVX-512BW chunk whose only nonzero
byte (value 1) is at position 1, the byte should be multiplied by
127 = (bytes after it) + 1, but the kernel contributes 95 to `s2` (and 0 to
`s1`), so the claimed per-byte multiplier structure fails on the code. -/
theorem c4_counterexample :
    adler32_avx512bw_chunk c4ex 0 0 = (0, 95)
      ∧ wSum c4ex = 127 ∧ c4ex.length = 128 ∧ (95 : Nat) ≠ 127 := by
  refine ⟨by decide, by decide, by decide, by decide⟩

/-- C4 amended: the weight vectors descend from the kernel segment size
(not from the chunk length) down to 1 across the four groups, and in the
SSE2 and AVX2 kernels the combination of weights and deferred shift gives
each byte of a valid chunk the exact multiplier
`(bytes after it) + 1 = n - j` in the `s2` update. -/
theorem c4_amended :
    (∀ i : Fin 8, wA i = 32 - (i.val : Int) ∧ wD i = 8 - (i.val : Int))
      ∧ (∀ i : Fin 16, w512A i = 64 - (i.val : Int) ∧ w512D i = 16 - (i.val : Int))
      ∧ (∀ (bytes : List Nat) (s1 s2 : Nat), bytes.length % 32 = 0 →
          bytes.length ≤ IMPL_MAX_CHUNK_SIZE → (∀ b ∈ bytes, b < 256) →
          (adler32_sse2_chunk bytes s1 s2).2 = (s2 + wSum bytes) % 2 ^ 32)
      ∧ (∀ (bytes : List Nat) (s1 s2 : Nat), bytes.length % 32 = 0 →
          (adler32_avx2_chunk bytes s1 s2).2 = (s2 + wSum bytes) % 2 ^ 32) := by
  refine ⟨fun i => ⟨rfl, rfl⟩, fun i => ⟨rfl, rfl⟩, ?_, ?_⟩
  · intro bytes s1 s2 hm hmax hb
    rw [sse2_chunk_eq bytes s1 s2 hm hmax hb]
  · intro bytes s1 s2 hm
    exact avx2_chunk_snd bytes s1 s2 hm

/-- Witness for `c4_amended` at a concrete 32-byte chunk. -/
theorem c4_amended_witness :
    ((List.replicate 32 1).length % 32 = 0
        ∧ (List.replicate 32 1).length ≤ IMPL_MAX_CHUNK_SIZE
        ∧ (∀ b ∈ List.replicate 32 1, b < 256))
      ∧ (adler32_sse2_chunk (List.replicate 32 1) 3 5).2
          = (5 + wSum (List.replicate 32 1)) % 2 ^ 32
      ∧ (adler32_avx2_chunk (List.replicate 32 1) 3 5).2
          = (5 + wSum (List.replicate 32 1)) % 2 ^ 32 :=
  ⟨⟨by decide, by decide, by decide⟩,
    c4_amended.2.2.1 (List.replicate 32 1) 3 5 (by decide) (by decide) (by decide),
    c4_amended.2.2.2 (List.replicate 32 1) 3 5 (by decide)⟩

/-- C5: on any chunk of at most `IMPL_MAX_CHUNK_SIZE = 32 * (0x7FFF / 0xFF)`
bytes with byte values below 256, no 16-bit byte-sum lane of the SSE2 kernel
ever exceeds `0x7FFF` at any iteration count `j` within the chunk, and every
signed product formed by the final `_mm_madd_epi16` calls lies within the
signed 32-bit range. -/
theorem c5_sse2_no_overflow (bytes : List Nat) (j : Nat)
    (hb : ∀ b ∈ bytes, b < 256) (hmax : bytes.length ≤ IMPL_MAX_CHUNK_SIZE)
    (hj : j ≤ bytes.length / 32) :
    IMPL_MAX_CHUNK_SIZE = 32 * (0x7FFF / 0xFF)
      ∧ (∀ i : Fin 8,
          (sse2Loop bytes j sse2Init).v_byte_sums_a i ≤ 0x7FFF
            ∧ (sse2Loop bytes j sse2Init).v_byte_sums_b i ≤ 0x7FFF
            ∧ (sse2Loop bytes j sse2Init).v_byte_sums_c i ≤ 0x7FFF
            ∧ (sse2Loop bytes j sse2Init).v_byte_sums_d i ≤ 0x7FFF)
      ∧ (∀ i : Fin 8,
          (0 ≤ toSigned16 ((sse2Loop bytes (bytes.length / 32) sse2Init).v_byte_sums_a i)
                * toSigned16 (wA i)
            ∧ toSigned16 ((sse2Loop bytes (bytes.length / 32) sse2Init).v_byte_sums_a i)
                * toSigned16 (wA i) < 2 ^ 31)
          ∧ (0 ≤ toSigned16 ((sse2Loop bytes (bytes.length / 32) sse2Init).v_byte_sums_b i)
                * toSigned16 (wB i)
            ∧ toSigned16 ((sse2Loop bytes (bytes.length / 32) sse2Init).v_byte_sums_b i)
                * toSigned16 (wB i) < 2 ^ 31)
          ∧ (0 ≤ toSigned16 ((sse2Loop bytes (bytes.length / 32) sse2Init).v_byte_sums_c i)
                * toSigned16 (wC i)
            ∧ toSigned16 ((sse2Loop bytes (bytes.length / 32) sse2Init).v_byte_sums_c i)
                * toSigned16 (wC i) < 2 ^ 31)
          ∧ (0 ≤ toSigned16 ((sse2Loop bytes (bytes.length / 32) sse2Init).v_byte_sums_d i)
                * toSigned16 (wD i)
            ∧ toSigned16 ((sse2Loop bytes (bytes.length / 32) sse2Init).v_byte_sums_d i)
                * toSigned16 (wD i) < 2 ^ 31)) := by
  rw [IMPL_MAX_CHUNK_SIZE_eq] at hmax
  have hj128 : j ≤ 128 := by omega
  have hk128 : bytes.length / 32 ≤ 128 := by omega
  refine ⟨rfl, ?_, ?_⟩
  · intro i
    obtain ⟨⟨la, ua⟩, ⟨lb, ub⟩, ⟨lc, uc⟩, ⟨ld, ud⟩⟩ := sse2_loop_bs_bounds j bytes sse2Init hb i
    rw [sse2Init_bsA] at la ua
    rw [sse2Init_bsB] at lb ub
    rw [sse2Init_bsC] at lc uc
    rw [sse2Init_bsD] at ld ud
    refine ⟨by omega, by omega, by omega, by omega⟩
  · intro i
    obtain ⟨⟨la, ua⟩, ⟨lb, ub⟩, ⟨lc, uc⟩, ⟨ld, ud⟩⟩ :=
      sse2_loop_bs_bounds (bytes.length / 32) bytes sse2Init hb i
    rw [sse2Init_bsA] at la ua
    rw [sse2Init_bsB] at lb ub
    rw [sse2Init_bsC] at lc uc
    rw [sse2Init_bsD] at ld ud
    exact ⟨madd_prod_bound _ wA i ⟨la, by omega⟩ (wA_bounds i) (toSigned16_wA i),
      madd_prod_bound _ wB i ⟨lb, by omega⟩ (wB_bounds i) (toSigned16_wB i),
      madd_prod_bound _ wC i ⟨lc, by omega⟩ (wC_bounds i) (toSigned16_wC i),
      madd_prod_bound _ wD i ⟨ld, by omega⟩ (wD_bounds i) (toSigned16_wD i)⟩

/-- Witness for `c5_sse2_no_overflow` at the all-255 32-byte chunk. -/
theorem c5_sse2_no_overflow_witness :
    ((∀ b ∈ List.replicate 32 255, b < 256)
        ∧ (List.replicate 32 255).length ≤ IMPL_MAX_CHUNK_SIZE
        ∧ 1 ≤ (List.replicate 32 255).length / 32)
      ∧ (IMPL_MAX_CHUNK_SIZE = 32 * (0x7FFF / 0xFF)
        ∧ (∀ i : Fin 8,
            (sse2Loop (List.replicate 32 255) 1 sse2Init).v_byte_sums_a i ≤ 0x7FFF
              ∧ (sse2Loop (List.replicate 32 255) 1 sse2Init).v_byte_sums_b i ≤ 0x7FFF
              ∧ (sse2Loop (List.replicate 32 255) 1 sse2Init).v_byte_sums_c i ≤ 0x7FFF
              ∧ (sse2Loop (List.replicate 32 255) 1 sse2Init).v_byte_sums_d i ≤ 0x7FFF)
        ∧ (∀ i : Fin 8,
            (0 ≤ toSigned16 ((sse2Loop (List.replicate 32 255)
                    ((List.replicate 32 255).length / 32) sse2Init).v_byte_sums_a i)
                  * toSigned16 (wA i)
              ∧ toSigned16 ((sse2Loop (List.replicate 32 255)
                    ((List.replicate 32 255).length / 32) sse2Init).v_byte_sums_a i)
                  * toSigned16 (wA i) < 2 ^ 31)
            ∧ (0 ≤ toSigned16 ((sse2Loop (List.replicate 32 255)
                    ((List.replicate 32 255).length / 32) sse2Init).v_byte_sums_b i)
                  * toSigned16 (wB i)
              ∧ toSigned16 ((sse2Loop (List.replicate 32 255)
                    ((List.replicate 32 255).length / 32) sse2Init).v_byte_sums_b i)
                  * toSigned16 (wB i) < 2 ^ 31)
            ∧ (0 ≤ toSigned16 ((sse2Loop (List.replicate 32 255)
                    ((List.replicate 32 255).length / 32) sse2Init).v_byte_sums_c i)
                  * toSigned16 (wC i)
              ∧ toSigned16 ((sse2Loop (List.replicate 32 255)
                    ((List.replicate 32 255).length / 32) sse2Init).v_byte_sums_c i)
                  * toSigned16 (wC i) < 2 ^ 31)
            ∧ (0 ≤ toSigned16 ((sse2Loop (List.replicate 32 255)
                    ((List.replicate 32 255).length / 32) sse2Init).v_byte_sums_d i)
                  * toSigned16 (wD i)
              ∧ toSigned16 ((sse2Loop (List.replicate 32 255)
                    ((List.replicate 32 255).length / 32) sse2Init).v_byte_sums_d i)
                  * toSigned16 (wD i) < 2 ^ 31))) :=
  ⟨⟨by decide, by decide, by decide⟩,
    c5_sse2_no_overflow (List.replicate 32 255) 1 (by decide) (by decide) (by decide)⟩

/-- C6: the dispatcher returns kernel `k` iff `k` is compiled in, its
feature bit is reported present, and no more-capable compiled-in kernel is
also reported present; the tests run in strictly most-capable-first order
(AVX-512BW, then AVX2, then SSE2). -/
theorem c6_dispatch_most_capable_first (cfg : DispatchConfig) (f : CpuFeatures)
    (k : AdlerKernel) :
    arch_select_adler32_func cfg f = some k
      ↔ (compiledIn cfg k = true ∧ featurePresent f k = true
          ∧ ∀ j, kernelRank k < kernelRank j
              → ¬(compiledIn cfg j = true ∧ featurePresent f j = true)) := by
  rcases cfg with ⟨a, b, c⟩
  rcases f with ⟨x, y, z⟩
  cases a <;> cases b <;> cases c <;> cases x <;> cases y <;> cases z <;>
    cases k <;> decide

/-- C7: the dispatcher is a total pure function of the capability bitset:
equal bitsets give equal results, and the result is `none` exactly when no
compiled-in kernel has its feature bit set — a normal value, not an error. -/
theorem c7_dispatch_total_pure (cfg : DispatchConfig) (f g : CpuFeatures) (h : f = g) :
    arch_select_adler32_func cfg f = arch_select_adler32_func cfg g
      ∧ (arch_select_adler32_func cfg f = Option.none
          ↔ ∀ k, ¬(compiledIn cfg k = true ∧ featurePresent f k = true)) := by
  subst h
  refine ⟨rfl, ?_⟩
  rcases cfg with ⟨a, b, c⟩
  rcases f with ⟨x, y, z⟩
  cases a <;> cases b <;> cases c <;> cases x <;> cases y <;> cases z <;> decide

/-- Witness for `c7_dispatch_total_pure` with all kernels compiled in and no
feature bit set: the dispatcher returns `none`. -/
theorem c7_dispatch_total_pure_witness :
    arch_select_adler32_func ⟨true, true, true⟩ ⟨false, false, false⟩
        = arch_select_adler32_func ⟨true, true, true⟩ ⟨false, false, false⟩
      ∧ (arch_select_adler32_func ⟨true, true, true⟩ ⟨false, false, false⟩ = Option.none
          ↔ ∀ k, ¬(compiledIn ⟨true, true, true⟩ k = true
              ∧ featurePresent ⟨false, false, false⟩ k = true)) :=
  c7_dispatch_total_pure ⟨true, true, true⟩ ⟨false, false, false⟩ ⟨false, false, false⟩ rfl

/-- C8: each kernel writes back exactly the incoming counter plus a chunk
contribution modulo `2^32`, where the contribution is a function of the
chunk bytes alone (the `*S1Gain`/`*S2Gain` functions take no counter
arguments); in particular no kernel overwrites, resets, or reduces the
counters modulo 65521. -/
theorem c8_frame_effect (bytes : List Nat) (s1 s2 : Nat) :
    adler32_sse2_chunk bytes s1 s2
        = ((((s1 : Int) + sse2S1Gain bytes) % 2 ^ 32).toNat,
           (((s2 : Int) + sse2S2Gain bytes) % 2 ^ 32).toNat)
      ∧ adler32_avx2_chunk bytes s1 s2
        = ((((s1 : Int) + avx2S1Gain bytes) % 2 ^ 32).toNat,
           (((s2 : Int) + avx2S2Gain bytes) % 2 ^ 32).toNat)
      ∧ adler32_avx512bw_chunk bytes s1 s2
        = ((((s1 : Int) + avx512S1Gain bytes) % 2 ^ 32).toNat,
           (((s2 : Int) + avx512S2Gain bytes) % 2 ^ 32).toNat) :=
  ⟨rfl, rfl, rfl⟩

/-- C9: the `s1` fold of the 128-bit reduction macro performs only the
`0x02` shuffle step, so it adds lane 0 plus lane 2 of the `s1` vector; that
equals the full horizontal sum when lanes 1 and 3 are zero, an invariant the
SSE2 kernel maintains because `psadbw` leaves the odd 32-bit lanes zero. -/
theorem c9_s1_fold_even_lanes :
    (∀ (s1 s2 : Nat) (a b : Vec 4),
        (ADLER32_FINISH_VEC_CHUNK_128 s1 s2 a b).1
          = (((s1 : Int) + (a 0 + a 2)) % 2 ^ 32).toNat)
      ∧ (∀ (s1 s2 : Nat) (a b : Vec 4), a 1 = 0 → a 3 = 0 →
          (ADLER32_FINISH_VEC_CHUNK_128 s1 s2 a b).1
            = (((s1 : Int) + sum4 a) % 2 ^ 32).toNat)
      ∧ (∀ (l : List Nat) (off : Nat), sadVec l off 1 = 0 ∧ sadVec l off 3 = 0)
      ∧ (∀ (bytes : List Nat) (k : Nat),
          (sse2Loop bytes k sse2Init).v_s1 1 = 0
            ∧ (sse2Loop bytes k sse2Init).v_s1 3 = 0) := by
  refine ⟨fun s1 s2 a b => finish128_fst s1 s2 a b, ?_, fun l off => ⟨rfl, rfl⟩, ?_⟩
  · intro s1 s2 a b h1 h3
    rw [finish128_fst]
    exact emod_toNat_congr s1 _ _ (by rw [sum4, h1, h3]; ring)
  · intro bytes k
    obtain ⟨i1, i3⟩ := sse2_loop_odd k bytes sse2Init
    exact ⟨by rw [i1]; rfl, by rw [i3]; rfl⟩

/-- Witness for `c9_s1_fold_even_lanes` on a concrete vector with zero odd
lanes. -/
theorem c9_s1_fold_even_lanes_witness :
    (c9vec 1 = 0 ∧ c9vec 3 = 0)
      ∧ (ADLER32_FINISH_VEC_CHUNK_128 7 0 c9vec 0).1
          = ((((7 : Nat) : Int) + sum4 c9vec) % 2 ^ 32).toNat :=
  ⟨⟨by decide, by decide⟩,
    c9_s1_fold_even_lanes.2.1 7 0 c9vec 0 (by decide) (by decide)⟩

/-- C10: the chunk loops exit only on exact pointer equality after whole
segments, so on a chunk of `m` segments (`m > 0`) they exit after exactly
`m = n / seg` iterations; a length that is a multiple of 16 but not of 32
never satisfies the SSE2 exit test; and the kernels indeed run their loops
`loopIterCount` times (32-byte segments for SSE2/AVX2, 64-byte for
AVX-512BW). -/
theorem c10_loop_exit (seg n m : Nat) (hseg : 0 < seg) (hn : n = seg * m) (hm : 0 < m) :
    loopExitReachable seg n ∧ loopIterCount seg n = m
      ∧ (∀ r, r % 32 = 16 → ¬ loopExitReachable 32 r)
      ∧ (∀ (bytes : List Nat) (s1 s2 : Nat),
          adler32_sse2_chunk bytes s1 s2
            = ADLER32_FINISH_VEC_CHUNK_128 s1 s2
                (sse2Loop bytes (loopIterCount 32 bytes.length) sse2Init).v_s1
                (sse2FinalS2Vec (sse2Loop bytes (loopIterCount 32 bytes.length) sse2Init)))
      ∧ (∀ (bytes : List Nat) (s1 s2 : Nat),
          adler32_avx512bw_chunk bytes s1 s2
            = ADLER32_FINISH_VEC_CHUNK_512 s1 s2
                (avx512CombinedS1 (avx512Loop bytes (loopIterCount 64 bytes.length) avx512Init))
                (avx512FinalS2Vec (avx512Loop bytes (loopIterCount 64 bytes.length) avx512Init))) := by
  refine ⟨⟨m, hm, hn.symm⟩, ?_, ?_, fun bytes s1 s2 => rfl, fun bytes s1 s2 => rfl⟩
  · rw [loopIterCount, hn, Nat.mul_div_cancel_left m hseg]
  · intro r hr hex
    obtain ⟨k, hk, hke⟩ := hex
    omega

/-- Witness for `c10_loop_exit` at a 64-byte chunk of two 32-byte
segments. -/
theorem c10_loop_exit_witness :
    (0 < 32 ∧ (64 : Nat) = 32 * 2 ∧ 0 < 2)
      ∧ (loopExitReachable 32 64 ∧ loopIterCount 32 64 = 2
          ∧ (∀ r, r % 32 = 16 → ¬ loopExitReachable 32 r)
          ∧ (∀ (bytes : List Nat) (s1 s2 : Nat),
              adler32_sse2_chunk bytes s1 s2
                = ADLER32_FINISH_VEC_CHUNK_128 s1 s2
                    (sse2Loop bytes (loopIterCount 32 bytes.length) sse2Init).v_s1
                    (sse2FinalS2Vec (sse2Loop bytes (loopIterCount 32 bytes.length) sse2Init)))
          ∧ (∀ (bytes : List Nat) (s1 s2 : Nat),
              adler32_avx512bw_chunk bytes s1 s2
                = ADLER32_FINISH_VEC_CHUNK_512 s1 s2
                    (avx512CombinedS1
                      (avx512Loop bytes (loopIterCount 64 bytes.length) avx512Init))
                    (avx512FinalS2Vec
                      (avx512Loop bytes (loopIterCount 64 bytes.length) avx512Init)))) :=
  ⟨⟨by decide, by decide, by decide⟩,
    c10_loop_exit 32 64 2 (by decide) (by decide) (by decide)⟩

end Adler32
